import Mathlib

set_option autoImplicit false

/-!
Shallow embedding of the assessment-generation and answer-normalization
pipeline of the AI_questionnaire repository (src/main.py, src/models.py,
src/testing_frontend.py), together with theorems settling the frozen
claims about its specification.
-/

/-! ## Data model (spec.md §3, src/main.py) -/

/-- A generated multiple-choice question, as carried through the pipeline
(`question_text`, `options`, `correct_answer`, `difficulty`, plus the
`topic` tag set by the admin assembly loop and the `topic_display` tag set
by the student on-the-fly path). -/
structure GeneratedQuestion where
  question_text : String
  options : List String
  correct_answer : String
  difficulty : String
  topic : String := ""
  topic_display : String := ""
deriving DecidableEq

/-- The canonical option labels, as in the Python list
`['A', 'B', 'C', 'D']` of `generate_assessment_questions`. -/
def canonical_labels : List String := ["A", "B", "C", "D"]

/-- `chr(65 + idx)` as a one-character string: the label of the option at
zero-based index `idx`. -/
def option_label (idx : Nat) : String := String.mk [Char.ofNat (65 + idx)]

/-- `options.index(ca)` guarded by `ca in options`: the zero-based index of
the first occurrence of `ca`, or `none` when `ca` does not occur. -/
def index_of_option (ca : String) : List String → Option Nat
  | [] => none
  | o :: rest => if o = ca then some 0 else (index_of_option ca rest).map (· + 1)

/-- The answer-normalization step of `generate_assessment_questions`
(src/main.py lines 711-721): if `correct_answer` is not one of
`A`,`B`,`C`,`D` and equals some option text, replace it by
`chr(65 + options.index(correct_answer))`; otherwise leave it alone. -/
def normalize_question (q : GeneratedQuestion) : GeneratedQuestion :=
  if q.correct_answer ∈ canonical_labels then q
  else
    match index_of_option q.correct_answer q.options with
    | some idx => { q with correct_answer := option_label idx }
    | none => q

/-! ## DifficultyDistribution validation (src/main.py lines 87-101)

Pydantic runs a `@validator('*', always=True)` once per field, in field
declaration order (`Easy`, `Medium`, `Hard`), and passes it the mapping of
the fields validated *so far* (the field currently being validated is the
argument `v`, not part of `values`).  We model each field's `values` dict
by three `Option Int` slots filled in declaration order. -/

/-- The body of `DifficultyDistribution.check_sum`: if all three of
`Easy`, `Medium`, `Hard` are present in `values`, reject unless they sum
to 100 (naming the actual sum); otherwise accept `v` unchanged. -/
def check_sum (easyV mediumV hardV : Option Int) (v : Int) : Except String Int :=
  if easyV.isSome && mediumV.isSome && hardV.isSome then
    let total := easyV.getD 0 + mediumV.getD 0 + hardV.getD 0
    if total ≠ 100 then
      Except.error ("Difficulty distribution must sum to 100%. Current sum: "
        ++ toString total ++ "%")
    else Except.ok v
  else Except.ok v

/-- The per-field constraint `Field(..., ge=0, le=100)`. -/
def field_in_range (v : Int) : Bool := decide (0 ≤ v) && decide (v ≤ 100)

/-- Validation of a `DifficultyDistribution`: each field in declaration
order first passes its range constraint and is then fed to `check_sum`
with the previously validated fields as `values`. -/
def validate_difficulty (easy medium hard : Int) : Except String (Int × Int × Int) :=
  if !(field_in_range easy) then Except.error "Easy: value out of range"
  else
    match check_sum none none none easy with
    | Except.error e => Except.error e
    | Except.ok _ =>
      if !(field_in_range medium) then Except.error "Medium: value out of range"
      else
        match check_sum (some easy) none none medium with
        | Except.error e => Except.error e
        | Except.ok _ =>
          if !(field_in_range hard) then Except.error "Hard: value out of range"
          else
            match check_sum (some easy) (some medium) none hard with
            | Except.error e => Except.error e
            | Except.ok _ => Except.ok (easy, medium, hard)

/-! ## Helper lemmas on `index_of_option` -/

theorem index_of_option_eq_none_iff (ca : String) (l : List String) :
    index_of_option ca l = none ↔ ca ∉ l := by
  induction l with
  | nil => simp [index_of_option]
  | cons o rest ih =>
    by_cases h : o = ca
    · simp [index_of_option, h]
    · simp only [index_of_option, if_neg h, Option.map_eq_none', ih, List.mem_cons]
      have hne : ¬ ca = o := fun hc => h hc.symm
      simp [hne]

theorem index_of_option_eq_some_iff (ca : String) (l : List String) (i : Nat) :
    index_of_option ca l = some i ↔
      l[i]? = some ca ∧ ∀ j, j < i → l[j]? ≠ some ca := by
  induction l generalizing i with
  | nil => simp [index_of_option]
  | cons o rest ih =>
    by_cases h : o = ca
    · subst h
      constructor
      · intro hs
        simp [index_of_option] at hs
        subst hs
        simp
      · rintro ⟨hget, hmin⟩
        match i with
        | 0 => simp [index_of_option]
        | i + 1 =>
          exact absurd (by simp : (o :: rest)[0]? = some o) (hmin 0 (Nat.succ_pos i))
    · constructor
      · intro hs
        simp only [index_of_option, if_neg h, Option.map_eq_some'] at hs
        obtain ⟨i', hi', rfl⟩ := hs
        obtain ⟨hget, hmin⟩ := (ih i').mp hi'
        refine ⟨by simpa using hget, ?_⟩
        intro j hj
        match j with
        | 0 =>
          simp only [List.getElem?_cons_zero]
          intro hc
          exact h (Option.some.inj hc)
        | j + 1 =>
          simp only [List.getElem?_cons_succ]
          exact hmin j (Nat.lt_of_succ_lt_succ hj)
      · rintro ⟨hget, hmin⟩
        match i with
        | 0 =>
          exact absurd (by simpa using hget : o = ca) h
        | i + 1 =>
          simp only [index_of_option, if_neg h, Option.map_eq_some']
          refine ⟨i, ?_, rfl⟩
          refine (ih i).mpr ⟨by simpa using hget, ?_⟩
          intro j hj
          have := hmin (j + 1) (Nat.succ_lt_succ hj)
          simpa using this

theorem index_of_option_mem (ca : String) (l : List String) (h : ca ∈ l) :
    ∃ i, index_of_option ca l = some i := by
  rcases hn : index_of_option ca l with _ | i
  · exact absurd ((index_of_option_eq_none_iff ca l).mp hn) (not_not.mpr h)
  · exact ⟨i, rfl⟩

/-! ## Claim C1 -/

/-- C1 (code bug): the spec says validation of a difficulty triple fails
unless the sum is exactly 100, naming the actual sum.  In the code the
`check_sum` validator only fires when `Easy`, `Medium` and `Hard` are all
among the previously-validated `values`, which never happens (the last
field, `Hard`, is never in its own `values` dict), so `{30,40,31}` is
accepted even though its sum is 101 — while the validator body itself,
were it ever reached with all three values, would reject naming 101. -/
theorem difficulty_sum_check_never_fires :
    validate_difficulty 30 40 31 = Except.ok (30, 40, 31)
    ∧ (30 + 40 + 31 : Int) ≠ 100
    ∧ check_sum (some 30) (some 40) (some 31) 31
        = Except.error "Difficulty distribution must sum to 100%. Current sum: 101%" :=
  ⟨rfl, by decide, rfl⟩

/-! ## Claims C2 and C9: the Answer Normalizer -/

/-- C2 counterexample: with duplicate option text
`["X", "Y", "X", "Z"]` and `correct_answer = "X"`, the answer equals
`options[2]` exactly and is not a canonical label, yet normalization
produces `"A"` (the label of the first match), not `"C"` as the claim
states. -/
theorem normalize_options2_counterexample :
    let q : GeneratedQuestion :=
      { question_text := "q", options := ["X", "Y", "X", "Z"],
        correct_answer := "X", difficulty := "Easy" }
    q.correct_answer ∉ canonical_labels
    ∧ q.options[2]? = some q.correct_answer
    ∧ (normalize_question q).correct_answer = "A"
    ∧ ("A" : String) ≠ "C" := by
  refine ⟨by decide, rfl, rfl, by decide⟩

/-- C2 (amended): normalization leaves a question unchanged when
`correct_answer` is already a canonical label; otherwise, if the answer
text occurs among the options, it is replaced by the label of the first
(lowest-index) matching option — in particular equality with `options[2]`
yields `"C"` provided neither `options[0]` nor `options[1]` equals the
answer — and if it matches no option at all the question is unchanged. -/
theorem normalize_question_spec (q : GeneratedQuestion) :
    (q.correct_answer ∈ canonical_labels → normalize_question q = q)
    ∧ (q.correct_answer ∉ canonical_labels →
        (∀ i, q.options[i]? = some q.correct_answer →
            (∀ j, j < i → q.options[j]? ≠ some q.correct_answer) →
            normalize_question q = { q with correct_answer := option_label i })
        ∧ (q.correct_answer ∉ q.options → normalize_question q = q)
        ∧ (q.options[0]? ≠ some q.correct_answer →
           q.options[1]? ≠ some q.correct_answer →
           q.options[2]? = some q.correct_answer →
           (normalize_question q).correct_answer = "C")) := by
  constructor
  · intro hl
    simp [normalize_question, hl]
  · intro hl
    refine ⟨?_, ?_, ?_⟩
    · intro i hget hmin
      have hidx : index_of_option q.correct_answer q.options = some i :=
        (index_of_option_eq_some_iff _ _ _).mpr ⟨hget, hmin⟩
      simp [normalize_question, hl, hidx]
    · intro hmem
      have hidx : index_of_option q.correct_answer q.options = none :=
        (index_of_option_eq_none_iff _ _).mpr hmem
      simp [normalize_question, hl, hidx]
    · intro h0 h1 h2
      have hidx : index_of_option q.correct_answer q.options = some 2 := by
        refine (index_of_option_eq_some_iff _ _ _).mpr ⟨h2, ?_⟩
        intro j hj
        match j, hj with
        | 0, _ => exact h0
        | 1, _ => exact h1
      have : normalize_question q = { q with correct_answer := option_label 2 } := by
        simp [normalize_question, hl, hidx]
      rw [this]
      rfl

/-- Witness for `normalize_question_spec` at the concrete question with
options `["10", "20", "30", "40"]` and answer text `"30"`: the claim's
third branch yields `"C"`. -/
theorem normalize_question_spec_witness :
    (normalize_question
      { question_text := "q", options := ["10", "20", "30", "40"],
        correct_answer := "30", difficulty := "Easy" }).correct_answer = "C" := by
  exact ((normalize_question_spec
    { question_text := "q", options := ["10", "20", "30", "40"],
      correct_answer := "30", difficulty := "Easy" }).2 (by decide)).2.2
    (by decide) (by decide) rfl

/-- C9: when the (non-label) answer text occurs at more than one position
among the options, normalization uses the label of the first matching
position: if positions `i < j` both hold the answer text and no position
below `i` does, the result label is `option_label i`. -/
theorem normalize_question_first_match (q : GeneratedQuestion) (i j : Nat)
    (hl : q.correct_answer ∉ canonical_labels)
    (hij : i < j)
    (hi : q.options[i]? = some q.correct_answer)
    (hj : q.options[j]? = some q.correct_answer)
    (hmin : ∀ k, k < i → q.options[k]? ≠ some q.correct_answer) :
    normalize_question q = { q with correct_answer := option_label i } := by
  have hidx : index_of_option q.correct_answer q.options = some i :=
    (index_of_option_eq_some_iff _ _ _).mpr ⟨hi, hmin⟩
  simp [normalize_question, hl, hidx]

/-- Witness for `normalize_question_first_match`: options
`["X", "Y", "X", "Z"]` with answer `"X"` match at positions 0 and 2; the
normalized answer is `"A"`. -/
theorem normalize_question_first_match_witness :
    normalize_question
      { question_text := "q", options := ["X", "Y", "X", "Z"],
        correct_answer := "X", difficulty := "Easy" }
      = { question_text := "q", options := ["X", "Y", "X", "Z"],
          correct_answer := option_label 0, difficulty := "Easy" } := by
  exact normalize_question_first_match
    { question_text := "q", options := ["X", "Y", "X", "Z"],
      correct_answer := "X", difficulty := "Easy" }
    0 2 (by decide) (by decide) rfl rfl (by intro k hk; omega)

/-! ## Topic configuration and the external generator boundary -/

/-- `TopicConfig` (src/main.py lines 103-106): topic name, positive count,
difficulty split (the triple of percentages, passed through to the
generator unchanged). -/
structure TopicConfig where
  topic_name : String
  count : Nat
  difficulty : Int × Int × Int
deriving DecidableEq

/-- The external generation service boundary: `generate_questions(topic,
total, distribution)` either returns a list of parsed questions or raises
(`none`). -/
abbrev Generator := String → Nat → (Int × Int × Int) → Option (List GeneratedQuestion)

/-- The truncation step of the assembly loop (src/main.py lines 340-341):
`if len(generated_questions) > count: generated_questions =
generated_questions[:count]`. -/
def truncate_generated (count : Nat) (qs : List GeneratedQuestion) : List GeneratedQuestion :=
  if qs.length > count then qs.take count else qs

/-- The tagging step of the admin assembly loop (src/main.py line 343):
`q['topic'] = topic_config.topic_name`. -/
def tag_topic (name : String) (q : GeneratedQuestion) : GeneratedQuestion :=
  { q with topic := name }

/-- One iteration of the admin assembly loop for a single `TopicConfig`:
call the generator, truncate to the requested count, tag with the topic. -/
def assemble_topic (g : Generator) (t : TopicConfig) : Option (List GeneratedQuestion) :=
  (g t.topic_name t.count t.difficulty).map
    (fun gen => (truncate_generated t.count gen).map (tag_topic t.topic_name))

/-- The admin assembly loop over all topics (src/main.py lines 332-346):
results are concatenated in request order via `extend`; the first
generator failure aborts the whole loop. -/
def assemble_topics (g : Generator) : List TopicConfig → Option (List GeneratedQuestion)
  | [] => some []
  | t :: ts =>
    match assemble_topic g t with
    | none => none
    | some qs => (assemble_topics g ts).map (qs ++ ·)

/-! ## Datastore model and the admin creation endpoint -/

/-- A row of the `questions` table as built by `save_questions_to_db`
(src/main.py lines 183-200). -/
structure QuestionRow where
  assessment_id : Nat
  topic : String
  question_text : String
  options : List String
  correct_answer : String
  difficulty : String
deriving DecidableEq

/-- A row of the `assessments` table as built by
`create_assessment_record` (src/main.py lines 161-181). -/
structure AssessmentRow where
  id : Nat
  topics : List TopicConfig
  total_questions : Nat
deriving DecidableEq

/-- The relevant slice of the datastore. -/
structure DB where
  assessments : List AssessmentRow
  questions : List QuestionRow
deriving DecidableEq

/-- Sum of the requested per-topic counts. -/
def sum_counts (topics : List TopicConfig) : Nat := (topics.map (·.count)).sum

/-- `create_assessment_record`: inserts the assessment header row (topic
configuration and total) and returns the fresh id. -/
def create_assessment_record (db : DB) (topics : List TopicConfig) (total : Nat) :
    DB × Nat :=
  let newId := db.assessments.length
  ({ db with assessments := db.assessments ++ [⟨newId, topics, total⟩] }, newId)

/-- The `questions`-table row built for one generated question by
`save_questions_to_db`: every field is copied verbatim. -/
def question_to_row (aid : Nat) (q : GeneratedQuestion) : QuestionRow :=
  ⟨aid, q.topic, q.question_text, q.options, q.correct_answer, q.difficulty⟩

/-- `save_questions_to_db`: bulk-insert of the generated questions. -/
def save_questions_to_db (db : DB) (aid : Nat) (qs : List GeneratedQuestion) : DB :=
  { db with questions := db.questions ++ qs.map (question_to_row aid) }

/-- The admin `POST /admin/assessments` handler (src/main.py lines
319-356): insert the assessment record, run the generation/assembly loop,
and only on full success save the questions.  The second component models
the HTTP outcome: `some (id, total_questions)` on success, `none` for the
500 raised when any topic's generation fails. -/
def create_assessment (g : Generator) (topics : List TopicConfig) (db : DB) :
    DB × Option (Nat × Nat) :=
  let rec0 := create_assessment_record db topics (sum_counts topics)
  match assemble_topics g topics with
  | none => (rec0.1, none)
  | some qs => (save_questions_to_db rec0.1 rec0.2 qs, some (rec0.2, qs.length))

/-- The tagging step of the student on-the-fly loop (src/main.py line
723): `q['topic_display'] = ...`. -/
def tag_topic_display (name : String) (q : GeneratedQuestion) : GeneratedQuestion :=
  { q with topic_display := name }

/-- The student `GET /student/assessments/{id}/generate` loop
(src/main.py lines 694-731): per stored topic config, generate, truncate,
normalize each question's answer, tag `topic_display`, concatenate.
Nothing is written to the datastore on this path. -/
def generate_assessment_questions (g : Generator) :
    List TopicConfig → Option (List GeneratedQuestion)
  | [] => some []
  | t :: ts =>
    match g t.topic_name t.count t.difficulty with
    | none => none
    | some gen =>
      (generate_assessment_questions g ts).map
        (fun rest =>
          ((truncate_generated t.count gen).map
            (fun q => tag_topic_display t.topic_name (normalize_question q))) ++ rest)

/-! ## Helper lemmas on assembly -/

theorem truncate_generated_length_le (count : Nat) (qs : List GeneratedQuestion) :
    (truncate_generated count qs).length ≤ count := by
  unfold truncate_generated
  split
  · simp only [List.length_take]
    omega
  · omega

theorem assemble_topic_length_le (g : Generator) (t : TopicConfig)
    (qs : List GeneratedQuestion) (h : assemble_topic g t = some qs) :
    qs.length ≤ t.count := by
  unfold assemble_topic at h
  rcases hg : g t.topic_name t.count t.difficulty with _ | gen
  · rw [hg] at h; simp at h
  · rw [hg] at h
    simp only [Option.map_eq_some'] at h
    obtain ⟨gen', hg', rfl⟩ := h
    cases hg'
    simpa using truncate_generated_length_le t.count gen

theorem assemble_topics_length_le (g : Generator) (topics : List TopicConfig)
    (out : List GeneratedQuestion) (h : assemble_topics g topics = some out) :
    out.length ≤ sum_counts topics := by
  induction topics generalizing out with
  | nil =>
    simp only [assemble_topics] at h
    cases h
    simp [sum_counts]
  | cons t ts ih =>
    simp only [assemble_topics] at h
    rcases ht : assemble_topic g t with _ | qs
    · rw [ht] at h; simp at h
    · rw [ht] at h
      simp only [Option.map_eq_some'] at h
      obtain ⟨rest, hrest, rfl⟩ := h
      have h1 := assemble_topic_length_le g t qs ht
      have h2 := ih rest hrest
      simp only [List.length_append, sum_counts, List.map_cons, List.sum_cons]
      have : (ts.map (·.count)).sum = sum_counts ts := rfl
      omega

theorem assemble_topics_cons (g : Generator) (t : TopicConfig)
    (ts : List TopicConfig) (qs rest : List GeneratedQuestion)
    (ht : assemble_topic g t = some qs) (hts : assemble_topics g ts = some rest) :
    assemble_topics g (t :: ts) = some (qs ++ rest) := by
  simp [assemble_topics, ht, hts]

theorem assemble_topics_eq_none_of_fail (g : Generator) (topics : List TopicConfig)
    (hfail : ∃ t ∈ topics, g t.topic_name t.count t.difficulty = none) :
    assemble_topics g topics = none := by
  induction topics with
  | nil => simp at hfail
  | cons t ts ih =>
    obtain ⟨t', ht', hg⟩ := hfail
    rcases List.mem_cons.mp ht' with rfl | hmem
    · simp [assemble_topics, assemble_topic, hg]
    · rcases hhead : assemble_topic g t with _ | qs
      · simp [assemble_topics, hhead]
      · simp [assemble_topics, hhead, ih ⟨t', hmem, hg⟩]

/-! ## Claim C3 -/

/-- C3: per topic, when the generator returns more items than requested
the assembled output for that topic is exactly the first `count` items (in
generator-return order, tagged), of length exactly `count`; when it
returns no more than requested, the list passes through whole (tagged),
never padded; and the whole batch result's length is bounded by the sum
of the requested counts. -/
theorem assembler_truncation (g : Generator) (t : TopicConfig)
    (gen : List GeneratedQuestion)
    (hg : g t.topic_name t.count t.difficulty = some gen)
    (topics : List TopicConfig) (out : List GeneratedQuestion)
    (hout : assemble_topics g topics = some out) :
    (gen.length > t.count →
      assemble_topic g t = some ((gen.take t.count).map (tag_topic t.topic_name))
      ∧ ((gen.take t.count).map (tag_topic t.topic_name)).length = t.count)
    ∧ (gen.length ≤ t.count →
      assemble_topic g t = some (gen.map (tag_topic t.topic_name))
      ∧ (gen.map (tag_topic t.topic_name)).length = gen.length)
    ∧ out.length ≤ sum_counts topics := by
  refine ⟨?_, ?_, assemble_topics_length_le g topics out hout⟩
  · intro hgt
    constructor
    · simp [assemble_topic, hg, truncate_generated, hgt]
    · simp only [List.length_map, List.length_take]
      omega
  · intro hle
    constructor
    · have : ¬ gen.length > t.count := by omega
      simp [assemble_topic, hg, truncate_generated, this]
    · simp

/-- Concrete generator for witnesses: always returns three fixed
questions. -/
def over_gen : Generator :=
  fun _ _ _ =>
    some [⟨"q1", ["1", "2", "3", "4"], "1", "Easy", "", ""⟩,
          ⟨"q2", ["1", "2", "3", "4"], "2", "Easy", "", ""⟩,
          ⟨"q3", ["1", "2", "3", "4"], "3", "Easy", "", ""⟩]

/-- Witness for `assembler_truncation`: a topic requesting 2 questions
whose generator returns 3 keeps exactly the first 2. -/
theorem assembler_truncation_witness :
    assemble_topic over_gen ⟨"T", 2, (100, 0, 0)⟩
      = some (([⟨"q1", ["1", "2", "3", "4"], "1", "Easy", "", ""⟩,
                ⟨"q2", ["1", "2", "3", "4"], "2", "Easy", "", ""⟩,
                ⟨"q3", ["1", "2", "3", "4"], "3", "Easy", "", ""⟩] :
                List GeneratedQuestion).take 2 |>.map (tag_topic "T")) :=
  ((assembler_truncation over_gen ⟨"T", 2, (100, 0, 0)⟩ _ rfl
      [⟨"T", 2, (100, 0, 0)⟩] _ rfl).1 (by decide)).1

/-! ## Claim C4 -/

/-- C4: each assembled question is tagged with its source topic, and the
per-topic lists are concatenated in the order the topic requests were
given: for topics `[tA, tB]` the batch result is exactly `tA`'s questions
followed by `tB`'s, and in general processing `t :: ts` prepends `t`'s
questions to the rest. -/
theorem assembler_order (g : Generator) (tA tB : TopicConfig)
    (qsA qsB : List GeneratedQuestion)
    (hA : assemble_topic g tA = some qsA)
    (hB : assemble_topic g tB = some qsB) :
    assemble_topics g [tA, tB] = some (qsA ++ qsB)
    ∧ (∀ q ∈ qsA, q.topic = tA.topic_name)
    ∧ (∀ q ∈ qsB, q.topic = tB.topic_name)
    ∧ (∀ (t : TopicConfig) (ts : List TopicConfig) qs rest,
        assemble_topic g t = some qs → assemble_topics g ts = some rest →
        assemble_topics g (t :: ts) = some (qs ++ rest)) := by
  have htag : ∀ (t : TopicConfig) qs, assemble_topic g t = some qs →
      ∀ q ∈ qs, q.topic = t.topic_name := by
    intro t qs h q hq
    unfold assemble_topic at h
    rcases hg : g t.topic_name t.count t.difficulty with _ | gen
    · rw [hg] at h; simp at h
    · rw [hg] at h
      simp only [Option.map_eq_some'] at h
      obtain ⟨gen', hg', rfl⟩ := h
      cases hg'
      obtain ⟨q0, _, rfl⟩ := List.mem_map.mp hq
      rfl
  refine ⟨?_, htag tA qsA hA, htag tB qsB hB, ?_⟩
  · have h2 : assemble_topics g [tB] = some (qsB ++ []) :=
      assemble_topics_cons g tB [] qsB [] hB rfl
    rw [List.append_nil] at h2
    exact assemble_topics_cons g tA [tB] qsA qsB hA h2
  · intro t ts qs rest ht hts
    exact assemble_topics_cons g t ts qs rest ht hts

/-- Witness for `assembler_order`: two concrete topics assembled in
order. -/
theorem assembler_order_witness :
    assemble_topics over_gen [⟨"A1", 3, (100, 0, 0)⟩, ⟨"B1", 3, (100, 0, 0)⟩]
      = some ((([⟨"q1", ["1", "2", "3", "4"], "1", "Easy", "", ""⟩,
                 ⟨"q2", ["1", "2", "3", "4"], "2", "Easy", "", ""⟩,
                 ⟨"q3", ["1", "2", "3", "4"], "3", "Easy", "", ""⟩] :
                 List GeneratedQuestion).map (tag_topic "A1"))
             ++ (([⟨"q1", ["1", "2", "3", "4"], "1", "Easy", "", ""⟩,
                   ⟨"q2", ["1", "2", "3", "4"], "2", "Easy", "", ""⟩,
                   ⟨"q3", ["1", "2", "3", "4"], "3", "Easy", "", ""⟩] :
                   List GeneratedQuestion).map (tag_topic "B1"))) :=
  (assembler_order over_gen ⟨"A1", 3, (100, 0, 0)⟩ ⟨"B1", 3, (100, 0, 0)⟩
      _ _ rfl rfl).1

/-! ## Claim C7 -/

/-- A generator that fails on topic name `"B"` and succeeds elsewhere. -/
def failing_gen : Generator :=
  fun name _ _ =>
    if name = "B" then none
    else some [⟨"q1", ["1", "2", "3", "4"], "1", "Easy", "", ""⟩]

/-- The three-topic batch used as the concrete failing input: the second
topic's generation fails. -/
def failing_batch : List TopicConfig :=
  [⟨"A", 1, (100, 0, 0)⟩, ⟨"B", 1, (100, 0, 0)⟩, ⟨"C", 1, (100, 0, 0)⟩]

/-- C7 counterexample: with the generator failing on the second of three
topics, the create operation reports failure and persists no questions —
but the datastore is not left unchanged: the assessment header row was
inserted before generation and survives, so the operation is not
all-or-nothing with respect to persistence. -/
theorem create_assessment_orphan_record :
    (create_assessment failing_gen failing_batch ⟨[], []⟩).2 = none
    ∧ (create_assessment failing_gen failing_batch ⟨[], []⟩).1.questions = []
    ∧ (create_assessment failing_gen failing_batch ⟨[], []⟩).1 ≠ (⟨[], []⟩ : DB) := by
  refine ⟨rfl, rfl, ?_⟩
  intro hc
  have : (create_assessment failing_gen failing_batch ⟨[], []⟩).1.assessments = [] := by
    rw [hc]
  exact absurd this (by decide)

/-- C7 (amended): if the generator fails on any topic of the batch, the
create operation reports failure, no questions from any topic are
persisted (the question save is never reached), and the only datastore
change is the assessment header row inserted before generation began. -/
theorem create_assessment_failure_no_questions (g : Generator)
    (topics : List TopicConfig) (db : DB)
    (hfail : ∃ t ∈ topics, g t.topic_name t.count t.difficulty = none) :
    (create_assessment g topics db).1.questions = db.questions
    ∧ (create_assessment g topics db).2 = none
    ∧ (create_assessment g topics db).1.assessments
        = db.assessments ++ [⟨db.assessments.length, topics, sum_counts topics⟩] := by
  have hnone : assemble_topics g topics = none :=
    assemble_topics_eq_none_of_fail g topics hfail
  refine ⟨?_, ?_, ?_⟩ <;>
    simp [create_assessment, create_assessment_record, hnone]

/-- Witness for `create_assessment_failure_no_questions` at the concrete
failing batch: the questions table stays empty. -/
theorem create_assessment_failure_no_questions_witness :
    (create_assessment failing_gen failing_batch ⟨[], []⟩).1.questions = [] :=
  (create_assessment_failure_no_questions failing_gen failing_batch ⟨[], []⟩
    ⟨⟨"B", 1, (100, 0, 0)⟩, by simp [failing_batch], rfl⟩).1

/-! ## Claim C10 -/

/-- The generator-returned `correct_answer` strings of a batch, truncated
per topic exactly as the assembly loop truncates, but taken straight from
the generator output (before any tagging). -/
def raw_correct_answers (g : Generator) : List TopicConfig → Option (List String)
  | [] => some []
  | t :: ts =>
    match g t.topic_name t.count t.difficulty with
    | none => none
    | some gen =>
      (raw_correct_answers g ts).map
        (fun rest => (truncate_generated t.count gen).map (·.correct_answer) ++ rest)

theorem assemble_topics_correct_answers (g : Generator) (topics : List TopicConfig)
    (qs : List GeneratedQuestion) (h : assemble_topics g topics = some qs) :
    raw_correct_answers g topics = some (qs.map (·.correct_answer)) := by
  induction topics generalizing qs with
  | nil =>
    simp only [assemble_topics] at h
    cases h
    rfl
  | cons t ts ih =>
    simp only [assemble_topics, assemble_topic] at h
    rcases hg : g t.topic_name t.count t.difficulty with _ | gen
    · rw [hg] at h; simp at h
    · rw [hg] at h
      simp only [Option.map_some', Option.map_eq_some'] at h
      obtain ⟨rest, hrest, rfl⟩ := h
      simp only [raw_correct_answers, hg, ih rest hrest, Option.map_some',
        Option.some.injEq, List.map_append, List.map_map]
      rfl

/-- C10: on the admin creation path the persisted question rows are the
assembled questions copied verbatim — in particular the saved
`correct_answer` strings are exactly the generator-returned strings (per
topic truncated), with answer normalization never applied before
persistence. -/
theorem admin_path_persists_raw_answers (g : Generator) (topics : List TopicConfig)
    (db : DB) (qs : List GeneratedQuestion)
    (hqs : assemble_topics g topics = some qs) :
    (create_assessment g topics db).1.questions
      = db.questions ++ qs.map (question_to_row db.assessments.length)
    ∧ (qs.map (question_to_row db.assessments.length)).map (·.correct_answer)
      = qs.map (·.correct_answer)
    ∧ raw_correct_answers g topics = some (qs.map (·.correct_answer)) := by
  refine ⟨?_, ?_, assemble_topics_correct_answers g topics qs hqs⟩
  · simp [create_assessment, create_assessment_record, save_questions_to_db, hqs]
  · simp only [List.map_map]
    rfl

/-- A generator returning a single question whose `correct_answer` is the
literal text of its third option (not a canonical label). -/
def raw_gen : Generator :=
  fun _ _ _ => some [⟨"q", ["1", "2", "3", "4"], "3", "Easy", "", ""⟩]

/-- Witness for `admin_path_persists_raw_answers`: the persisted row keeps
the literal answer text `"3"`, although the student-path normalizer would
have relabelled that very question to `"C"`. -/
theorem admin_path_persists_raw_answers_witness :
    (create_assessment raw_gen [⟨"T", 1, (100, 0, 0)⟩] ⟨[], []⟩).1.questions
      = [] ++ ([tag_topic "T" ⟨"q", ["1", "2", "3", "4"], "3", "Easy", "", ""⟩].map
          (question_to_row 0))
    ∧ (normalize_question ⟨"q", ["1", "2", "3", "4"], "3", "Easy", "", ""⟩).correct_answer
        = "C" :=
  ⟨(admin_path_persists_raw_answers raw_gen [⟨"T", 1, (100, 0, 0)⟩] ⟨[], []⟩
      [tag_topic "T" ⟨"q", ["1", "2", "3", "4"], "3", "Easy", "", ""⟩] rfl).1,
   by decide⟩

/-! ## Scoring aggregation (src/testing_frontend.py lines 489-514)

The admin dashboard's "View Results" tab folds the submission rows for
one assessment into a dict keyed by `student_id`: the first-seen
submission initializes the row (display name, email, score) and later
submissions only overwrite `Best Score` when strictly higher.  Python
dicts preserve insertion order, so the dict is modelled as an
association list updated in place. -/

/-- A submission row as consumed by the dashboard: `student_id`, `score`,
and the joined student display fields. -/
structure SubmissionRecordRow where
  student_id : String
  score : ℚ
  full_name : String
  email : String
deriving DecidableEq

/-- One row of the derived best-score view: display name, email, best
score. -/
structure BestRow where
  name : String
  email : String
  best : ℚ
deriving DecidableEq

/-- Association-list lookup by student id (Python `dict` access). -/
def alookup (sid : String) : List (String × BestRow) → Option BestRow
  | [] => none
  | (k, v) :: rest => if k = sid then some v else alookup sid rest

/-- The key list of the accumulator (Python `dict` keys, insertion
order). -/
def akeys (l : List (String × BestRow)) : List String := l.map (·.1)

/-- Overwrite the `Best Score` field of a view row. -/
def set_best (x : ℚ) (r : BestRow) : BestRow := { r with best := x }

/-- One loop iteration of the dashboard fold: initialize the student's
row on first sight, otherwise raise `Best Score` only when the new score
is strictly higher. -/
def update_best (acc : List (String × BestRow)) (s : SubmissionRecordRow) :
    List (String × BestRow) :=
  match alookup s.student_id acc with
  | none => acc ++ [(s.student_id, ⟨s.full_name, s.email, s.score⟩)]
  | some r =>
    if r.best < s.score then
      acc.map (fun p =>
        if p.1 = s.student_id then (p.1, set_best s.score p.2) else p)
    else acc

/-- The whole aggregation: fold the submission list into the dict. -/
def student_best_scores (subs : List SubmissionRecordRow) : List (String × BestRow) :=
  subs.foldl update_best []

/-- The effect of one loop iteration on a single student's entry. -/
def step_best (sid : String) (o : Option BestRow) (s : SubmissionRecordRow) :
    Option BestRow :=
  if s.student_id = sid then
    match o with
    | none => some ⟨s.full_name, s.email, s.score⟩
    | some r => some (if r.best < s.score then set_best s.score r else r)
  else o

/-- Running maximum of the scores of `l` starting from `b`. -/
def max_score (b : ℚ) (l : List SubmissionRecordRow) : ℚ :=
  l.foldl (fun acc s => if acc < s.score then s.score else acc) b

/-- The submissions of student `sid`, in order. -/
def matches_of (sid : String) (subs : List SubmissionRecordRow) :
    List SubmissionRecordRow :=
  subs.filter (fun s => decide (s.student_id = sid))

/-- The expected view row of one student: display fields of the
first-seen submission, running maximum of all its scores. -/
def best_view (sid : String) : List SubmissionRecordRow → Option BestRow
  | [] => none
  | s0 :: rest => some ⟨s0.full_name, s0.email, max_score s0.score rest⟩

/-! ## Helper lemmas on the aggregation -/

theorem matches_of_cons (sid : String) (s : SubmissionRecordRow)
    (rest : List SubmissionRecordRow) :
    matches_of sid (s :: rest)
      = if s.student_id = sid then s :: matches_of sid rest
        else matches_of sid rest := by
  by_cases h : s.student_id = sid <;> simp [matches_of, List.filter_cons, h]

theorem mem_matches_of (sid : String) (s : SubmissionRecordRow)
    (subs : List SubmissionRecordRow) :
    s ∈ matches_of sid subs ↔ s ∈ subs ∧ s.student_id = sid := by
  simp [matches_of, List.mem_filter]

theorem alookup_append (sid : String) (l1 l2 : List (String × BestRow)) :
    alookup sid (l1 ++ l2)
      = match alookup sid l1 with
        | some v => some v
        | none => alookup sid l2 := by
  induction l1 with
  | nil => simp [alookup]
  | cons p rest ih =>
    obtain ⟨k, v⟩ := p
    by_cases h : k = sid <;> simp [alookup, h, ih]

theorem alookup_map_update (sid k : String) (g : BestRow → BestRow)
    (acc : List (String × BestRow)) :
    alookup sid (acc.map (fun p => if p.1 = k then (p.1, g p.2) else p))
      = if k = sid then (alookup sid acc).map g else alookup sid acc := by
  induction acc with
  | nil => by_cases h : k = sid <;> simp [alookup, h]
  | cons p rest ih =>
    obtain ⟨k', v⟩ := p
    by_cases h2 : k' = k
    · subst h2
      have hhead : (if ((k', v) : String × BestRow).1 = k'
          then (((k', v) : String × BestRow).1, g ((k', v) : String × BestRow).2)
          else ((k', v) : String × BestRow)) = (k', g v) := by
        simp
      rw [List.map_cons, hhead]
      by_cases h1 : k' = sid
      · subst h1
        simp [alookup]
      · simp [alookup, h1, ih]
    · have hhead : (if ((k', v) : String × BestRow).1 = k
          then (((k', v) : String × BestRow).1, g ((k', v) : String × BestRow).2)
          else ((k', v) : String × BestRow)) = (k', v) := by
        simp [h2]
      rw [List.map_cons, hhead]
      by_cases h1 : k' = sid
      · subst h1
        have hk : ¬ k = k' := fun hc => h2 hc.symm
        simp [alookup, hk]
      · simp [alookup, h1, ih]

theorem alookup_update_best (sid : String) (acc : List (String × BestRow))
    (s : SubmissionRecordRow) :
    alookup sid (update_best acc s) = step_best sid (alookup sid acc) s := by
  rcases hl : alookup s.student_id acc with _ | r
  · have hub : update_best acc s
        = acc ++ [(s.student_id, ⟨s.full_name, s.email, s.score⟩)] := by
      unfold update_best
      simp only [hl]
    rw [hub, alookup_append]
    by_cases hs : s.student_id = sid
    · subst hs
      rw [hl]
      unfold step_best
      simp [alookup, hl]
    · unfold step_best
      rw [if_neg hs]
      rcases ha : alookup sid acc with _ | v
      · simp [alookup, hs]
      · rfl
  · by_cases hlt : r.best < s.score
    · have hub : update_best acc s
          = acc.map (fun p =>
              if p.1 = s.student_id then (p.1, set_best s.score p.2) else p) := by
        unfold update_best
        simp only [hl]
        rw [if_pos hlt]
      rw [hub, alookup_map_update sid s.student_id (set_best s.score) acc]
      unfold step_best
      by_cases hs : s.student_id = sid
      · subst hs
        simp [hl, hlt]
      · simp [hs]
    · have hub : update_best acc s = acc := by
        unfold update_best
        simp only [hl]
        rw [if_neg hlt]
      rw [hub]
      unfold step_best
      by_cases hs : s.student_id = sid
      · subst hs
        simp [hl, hlt]
      · simp [hs]

theorem alookup_foldl_update_best (sid : String) (subs : List SubmissionRecordRow)
    (acc : List (String × BestRow)) :
    alookup sid (subs.foldl update_best acc)
      = subs.foldl (step_best sid) (alookup sid acc) := by
  induction subs generalizing acc with
  | nil => rfl
  | cons s rest ih =>
    simp only [List.foldl_cons]
    rw [ih, alookup_update_best]

theorem step_fold_some (sid : String) (subs : List SubmissionRecordRow)
    (n e : String) (b : ℚ) :
    subs.foldl (step_best sid) (some ⟨n, e, b⟩)
      = some ⟨n, e, max_score b (matches_of sid subs)⟩ := by
  induction subs generalizing b with
  | nil => rfl
  | cons s rest ih =>
    by_cases h : s.student_id = sid
    · have hstep : step_best sid (some ⟨n, e, b⟩) s
          = some ⟨n, e, if b < s.score then s.score else b⟩ := by
        unfold step_best
        rw [if_pos h]
        by_cases hlt : b < s.score <;> simp [set_best, hlt]
      rw [List.foldl_cons, hstep, ih, matches_of_cons, if_pos h]
      rfl
    · have hstep : step_best sid (some (⟨n, e, b⟩ : BestRow)) s = some ⟨n, e, b⟩ := by
        unfold step_best
        rw [if_neg h]
      rw [List.foldl_cons, hstep, ih, matches_of_cons, if_neg h]

theorem step_fold_none (sid : String) (subs : List SubmissionRecordRow) :
    subs.foldl (step_best sid) none = best_view sid (matches_of sid subs) := by
  induction subs with
  | nil => rfl
  | cons s rest ih =>
    by_cases h : s.student_id = sid
    · have hstep : step_best sid none s = some ⟨s.full_name, s.email, s.score⟩ := by
        unfold step_best
        rw [if_pos h]
      rw [List.foldl_cons, hstep, matches_of_cons, if_pos h]
      exact step_fold_some sid rest s.full_name s.email s.score
    · have hstep : step_best sid none s = none := by
        unfold step_best
        rw [if_neg h]
      rw [List.foldl_cons, hstep, matches_of_cons, if_neg h]
      exact ih

theorem alookup_student_best_scores (sid : String)
    (subs : List SubmissionRecordRow) :
    alookup sid (student_best_scores subs) = best_view sid (matches_of sid subs) := by
  unfold student_best_scores
  rw [alookup_foldl_update_best]
  exact step_fold_none sid subs

theorem le_max_score (b : ℚ) (l : List SubmissionRecordRow) : b ≤ max_score b l := by
  induction l generalizing b with
  | nil => simp [max_score]
  | cons s rest ih =>
    have h1 : b ≤ if b < s.score then s.score else b := by
      by_cases hlt : b < s.score
      · rw [if_pos hlt]
        exact le_of_lt hlt
      · rw [if_neg hlt]
    exact le_trans h1 (ih (if b < s.score then s.score else b))

theorem max_score_ub (b : ℚ) (l : List SubmissionRecordRow) :
    ∀ s ∈ l, s.score ≤ max_score b l := by
  induction l generalizing b with
  | nil =>
    intro s hs
    simp at hs
  | cons s0 rest ih =>
    intro s hs
    rcases List.mem_cons.mp hs with rfl | hmem
    · have h1 : s.score ≤ if b < s.score then s.score else b := by
        by_cases hlt : b < s.score
        · rw [if_pos hlt]
        · rw [if_neg hlt]
          exact le_of_not_lt hlt
      exact le_trans h1 (le_max_score _ rest)
    · exact ih (if b < s0.score then s0.score else b) s hmem

theorem max_score_mem (b : ℚ) (l : List SubmissionRecordRow) :
    max_score b l = b ∨ ∃ s ∈ l, max_score b l = s.score := by
  induction l generalizing b with
  | nil => left; rfl
  | cons s0 rest ih =>
    have hms : max_score b (s0 :: rest)
        = max_score (if b < s0.score then s0.score else b) rest := rfl
    by_cases hlt : b < s0.score
    · rcases ih s0.score with h | ⟨s, hs, h⟩
      · right
        refine ⟨s0, List.mem_cons_self s0 rest, ?_⟩
        rw [hms, if_pos hlt, h]
      · right
        refine ⟨s, List.mem_cons_of_mem s0 hs, ?_⟩
        rw [hms, if_pos hlt, h]
    · rcases ih b with h | ⟨s, hs, h⟩
      · left
        rw [hms, if_neg hlt, h]
      · right
        refine ⟨s, List.mem_cons_of_mem s0 hs, ?_⟩
        rw [hms, if_neg hlt, h]

theorem alookup_eq_none_iff (sid : String) (acc : List (String × BestRow)) :
    alookup sid acc = none ↔ sid ∉ akeys acc := by
  induction acc with
  | nil => simp [alookup, akeys]
  | cons p rest ih =>
    obtain ⟨k, v⟩ := p
    by_cases h : k = sid
    · subst h
      simp [alookup, akeys]
    · have h2 : ¬ sid = k := fun hc => h hc.symm
      simp [alookup, akeys, h, h2, ih]

theorem akeys_update_best (acc : List (String × BestRow)) (s : SubmissionRecordRow) :
    akeys (update_best acc s)
      = match alookup s.student_id acc with
        | some _ => akeys acc
        | none => akeys acc ++ [s.student_id] := by
  rcases hl : alookup s.student_id acc with _ | r
  · unfold update_best
    simp only [hl]
    simp [akeys]
  · unfold update_best
    simp only [hl]
    by_cases hlt : r.best < s.score
    · rw [if_pos hlt]
      unfold akeys
      rw [List.map_map]
      congr 1
      funext p
      by_cases hp : p.1 = s.student_id <;> simp [Function.comp, hp]
    · rw [if_neg hlt]

theorem akeys_nodup_foldl (subs : List SubmissionRecordRow) :
    ∀ acc : List (String × BestRow), (akeys acc).Nodup →
      (akeys (subs.foldl update_best acc)).Nodup := by
  induction subs with
  | nil => intro acc h; exact h
  | cons s rest ih =>
    intro acc h
    apply ih
    rw [akeys_update_best]
    rcases hl : alookup s.student_id acc with _ | r
    · have hnm : s.student_id ∉ akeys acc := (alookup_eq_none_iff _ _).mp hl
      rw [List.nodup_append]
      refine ⟨h, List.nodup_singleton _, ?_⟩
      intro a ha hs
      rcases List.mem_singleton.mp hs with rfl
      exact hnm ha
    · exact h

theorem akeys_student_best_scores_nodup (subs : List SubmissionRecordRow) :
    (akeys (student_best_scores subs)).Nodup :=
  akeys_nodup_foldl subs [] (by simp [akeys])

/-! ## Claim C5 -/

/-- C5: the dashboard's best-score view has exactly one entry per distinct
`student_id` occurring among the submissions (keys are duplicate-free, an
entry exists precisely for the students with at least one submission, so
a student with zero submissions is absent), each entry's score is the
maximum score among that student's submissions (it is one of their scores
and an upper bound of all of them), and the display name and email come
from the first-seen submission of that student. -/
theorem scoring_best_per_student (subs : List SubmissionRecordRow) :
    (akeys (student_best_scores subs)).Nodup
    ∧ (∀ sid, (alookup sid (student_best_scores subs)).isSome
        ↔ ∃ s ∈ subs, s.student_id = sid)
    ∧ (∀ sid r, alookup sid (student_best_scores subs) = some r →
        (∃ s ∈ subs, s.student_id = sid ∧ s.score = r.best)
        ∧ (∀ s ∈ subs, s.student_id = sid → s.score ≤ r.best)
        ∧ (∃ s0 rest, matches_of sid subs = s0 :: rest
            ∧ r.name = s0.full_name ∧ r.email = s0.email)) := by
  refine ⟨akeys_student_best_scores_nodup subs, ?_, ?_⟩
  · intro sid
    rw [alookup_student_best_scores]
    rcases hm : matches_of sid subs with _ | ⟨s0, rest⟩
    · simp only [best_view, Option.isSome_none, Bool.false_eq_true, false_iff]
      rintro ⟨s, hs, hsid⟩
      have : s ∈ matches_of sid subs := (mem_matches_of sid s subs).mpr ⟨hs, hsid⟩
      rw [hm] at this
      simp at this
    · simp only [best_view, Option.isSome_some, true_iff]
      have hs0 : s0 ∈ matches_of sid subs := by
        rw [hm]
        exact List.mem_cons_self _ _
      obtain ⟨hs0m, hid⟩ := (mem_matches_of sid s0 subs).mp hs0
      exact ⟨s0, hs0m, hid⟩
  · intro sid r hr
    rw [alookup_student_best_scores] at hr
    rcases hm : matches_of sid subs with _ | ⟨s0, rest⟩
    · rw [hm] at hr
      simp [best_view] at hr
    · rw [hm] at hr
      simp only [best_view, Option.some.injEq] at hr
      subst hr
      have hmemrow : ∀ s, s ∈ s0 :: rest → s ∈ subs ∧ s.student_id = sid := by
        intro s hs
        have : s ∈ matches_of sid subs := by
          rw [hm]
          exact hs
        exact (mem_matches_of sid s subs).mp this
      refine ⟨?_, ?_, ⟨s0, rest, rfl, rfl, rfl⟩⟩
      · rcases max_score_mem s0.score rest with h | ⟨s, hs, h⟩
        · obtain ⟨hs0m, hid0⟩ := hmemrow s0 (List.mem_cons_self _ _)
          exact ⟨s0, hs0m, hid0, h.symm⟩
        · obtain ⟨hsm, hid⟩ := hmemrow s (List.mem_cons_of_mem _ hs)
          exact ⟨s, hsm, hid, h.symm⟩
      · intro s hs hsid
        have hsm : s ∈ matches_of sid subs := (mem_matches_of sid s subs).mpr ⟨hs, hsid⟩
        rw [hm] at hsm
        rcases List.mem_cons.mp hsm with rfl | hmem
        · exact le_max_score s.score rest
        · exact max_score_ub s0.score rest s hmem

/-- The spec's concrete scoring example: submissions
`[(S1,40), (S1,85), (S2,60)]`. -/
def example_submissions : List SubmissionRecordRow :=
  [⟨"S1", 40, "Alice", "alice@example.com"⟩,
   ⟨"S1", 85, "Alice", "alice@example.com"⟩,
   ⟨"S2", 60, "Bob", "bob@example.com"⟩]

/-- Witness for `scoring_best_per_student` at the spec's example: student
S1's first submission (score 40) is bounded by S1's view entry, whose best
score is 85. -/
theorem scoring_best_per_student_witness :
    (⟨"S1", 40, "Alice", "alice@example.com"⟩ : SubmissionRecordRow).score
      ≤ (⟨"Alice", "alice@example.com", 85⟩ : BestRow).best :=
  ((scoring_best_per_student example_submissions).2.2 "S1"
      ⟨"Alice", "alice@example.com", 85⟩ (by decide)).2.1
    ⟨"S1", 40, "Alice", "alice@example.com"⟩ (by decide) rfl

/-! ## Response-text cleanup (src/models.py lines 41-48)

`generate_questions` strips the response text, and when it starts with a
code fence it runs `content.strip('`').replace("json", "")`: all leading
and trailing backticks are removed and every occurrence of the substring
`json` anywhere in the text is deleted, not just the fence's language
tag. -/

/-- The backtick character. -/
def backtick : Char := Char.ofNat 96

/-- ASCII whitespace as stripped by Python `str.strip()`. -/
def is_ws (c : Char) : Bool :=
  c = ' ' || c = '\t' || c = '\n' || c = '\r' || c = Char.ofNat 11 || c = Char.ofNat 12

/-- The character class stripped by `strip('`')`. -/
def is_backtick (c : Char) : Bool := c = backtick

/-- Python `str.strip(chars)`: drop the class from both ends. -/
def strip_ends (q : Char → Bool) (s : List Char) : List Char :=
  ((s.dropWhile q).reverse.dropWhile q).reverse

/-- A code fence: three backticks. -/
def fence : List Char := [backtick, backtick, backtick]

/-- Python `content.startswith('```')`. -/
def starts_with_fence : List Char → Bool
  | c1 :: c2 :: c3 :: _ => c1 = backtick && c2 = backtick && c3 = backtick
  | _ => false

/-- Python `content.replace("json", "")`: delete every non-overlapping
occurrence of `json`, scanning left to right. -/
def remove_json : List Char → List Char
  | 'j' :: 's' :: 'o' :: 'n' :: rest => remove_json rest
  | c :: rest => c :: remove_json rest
  | [] => []

/-- Whether the text contains an occurrence of the substring `json`. -/
def contains_json : List Char → Bool
  | 'j' :: 's' :: 'o' :: 'n' :: _ => true
  | _ :: rest => contains_json rest
  | [] => false

/-- The cleanup applied to the raw response text before `json.loads`:
whitespace strip, then — only when the text starts with a fence —
backtick strip at both ends followed by global deletion of `json`. -/
def clean_content (raw : List Char) : List Char :=
  if starts_with_fence (strip_ends is_ws raw) then
    remove_json (strip_ends is_backtick (strip_ends is_ws raw))
  else strip_ends is_ws raw

/-- Modelled from the spec's words ("parses the service's raw text
response as JSON after stripping any surrounding code-fence markup"):
remove only the surrounding fence markup — the leading fence with an
optional `json` language tag and the trailing fence — leaving the payload
between the fences untouched. -/
def strip_fences_per_spec (raw : List Char) : List Char :=
  let content := strip_ends is_ws raw
  if starts_with_fence content then
    let afterOpen := content.drop 3
    let afterTag :=
      if ('j' :: 's' :: 'o' :: 'n' :: ([] : List Char)).isPrefixOf afterOpen then
        afterOpen.drop 4
      else afterOpen
    if fence.isSuffixOf afterTag then afterTag.take (afterTag.length - 3)
    else afterTag
  else content

/-- Whether `pat` occurs as a contiguous substring. -/
def contains_sub (pat : List Char) : List Char → Bool
  | [] => pat.isEmpty
  | c :: rest => pat.isPrefixOf (c :: rest) || contains_sub pat rest

/-! ## The generation boundary (src/models.py generate_questions)

The external call either produces a raw response text (`some raw`) or
raises (`none`); `json.loads`-style parsing of the cleaned text is the
abstract parameter `parse`.  On any exception the code prints an `AI
Error` line — and, when a response was received, a `Raw AI Response`
line with the raw text — to the server console, and raises
`ValueError("Failed to generate valid questions from AI.")`; the raised
error's payload is only that fixed message. -/

/-- The fixed message of the `ValueError` raised on any failure. -/
def fixed_gen_error_msg : String := "Failed to generate valid questions from AI."

/-- Outcome of one `generate_questions` call: a parsed question list, or
a raised error carrying its message plus the optional raw response text
that was printed to the console (not part of the raised error). -/
inductive GenResult where
  | ok (qs : List GeneratedQuestion)
  | failed (msg : String) (printedRaw : Option String)
deriving DecidableEq

/-- `generate_questions` of src/models.py over the call outcome and the
JSON parsing boundary. -/
def generate_questions (svcResponse : Option (List Char))
    (parse : List Char → Option (List GeneratedQuestion)) : GenResult :=
  match svcResponse with
  | none => GenResult.failed fixed_gen_error_msg none
  | some raw =>
    match parse (clean_content raw) with
    | some qs => GenResult.ok qs
    | none => GenResult.failed fixed_gen_error_msg (some (String.mk raw))

/-! ## Helper lemmas on the cleanup -/

theorem remove_json_id (p : List Char) (h : contains_json p = false) :
    remove_json p = p := by
  induction p using remove_json.induct with
  | case1 rest ih => simp [contains_json] at h
  | case2 c rest hne ih =>
    have h' : contains_json rest = false := by
      rw [contains_json] at h
      · exact h
      · exact hne
    rw [remove_json, ih h']
    exact hne
  | case3 => rfl

theorem dropWhile_eq_self_of_head (q : Char → Bool) (s : List Char)
    (h : ∀ c, s.head? = some c → q c = false) : s.dropWhile q = s := by
  cases s with
  | nil => rfl
  | cons c t =>
    have hc := h c rfl
    simp [List.dropWhile_cons, hc]

theorem strip_ends_eq_self (q : Char → Bool) (s : List Char)
    (h1 : ∀ c, s.head? = some c → q c = false)
    (h2 : ∀ c, s.reverse.head? = some c → q c = false) :
    strip_ends q s = s := by
  unfold strip_ends
  rw [dropWhile_eq_self_of_head q s h1, dropWhile_eq_self_of_head q s.reverse h2,
    List.reverse_reverse]

theorem strip_ws_fenced (mid : List Char) :
    strip_ends is_ws (fence ++ mid ++ fence) = fence ++ mid ++ fence := by
  have hwb : is_ws backtick = false := by decide
  have hh1 : (fence ++ mid ++ fence).head? = some backtick := by
    simp [fence]
  have hh2 : (fence ++ mid ++ fence).reverse.head? = some backtick := by
    simp [fence, List.reverse_append]
  apply strip_ends_eq_self
  · intro c0 hc
    rw [hh1] at hc
    injection hc with h
    subst h
    exact hwb
  · intro c0 hc
    rw [hh2] at hc
    injection hc with h
    subst h
    exact hwb

theorem strip_backticks_fenced (c : Char) (t : List Char)
    (hbt : backtick ∉ c :: t) :
    strip_ends is_backtick (fence ++ (c :: t) ++ fence) = c :: t := by
  have hb : is_backtick backtick = true := by decide
  have hcne : ¬ c = backtick := fun h => hbt (List.mem_cons.mpr (Or.inl h.symm))
  have hcb : is_backtick c = false := by simp [is_backtick, hcne]
  have h1 : List.dropWhile is_backtick (fence ++ (c :: t) ++ fence)
      = (c :: t) ++ fence := by
    simp [fence, List.dropWhile_cons, hb, hcb]
  rcases hrev : (c :: t).reverse with _ | ⟨d, drest⟩
  · exact absurd hrev (by simp)
  · have hdmem : d ∈ c :: t := by
      have hd : d ∈ (c :: t).reverse := by
        rw [hrev]
        exact List.mem_cons_self _ _
      exact List.mem_reverse.mp hd
    have hdne : ¬ d = backtick := fun h => hbt (h ▸ hdmem)
    have hdb : is_backtick d = false := by simp [is_backtick, hdne]
    have h2 : ((c :: t) ++ fence).reverse = fence ++ d :: drest := by
      rw [List.reverse_append, hrev]
      simp [fence]
    have h3 : List.dropWhile is_backtick (fence ++ d :: drest) = d :: drest := by
      simp [fence, List.dropWhile_cons, hb, hdb]
    unfold strip_ends
    rw [h1, h2, h3, ← hrev, List.reverse_reverse]

theorem clean_content_fenced (p : List Char) (hne : p ≠ []) (hbt : backtick ∉ p) :
    clean_content (fence ++ p ++ fence) = remove_json p := by
  obtain ⟨c, t, rfl⟩ := List.exists_cons_of_ne_nil hne
  unfold clean_content
  rw [strip_ws_fenced]
  have hsw : starts_with_fence (fence ++ (c :: t) ++ fence) = true := rfl
  rw [if_pos hsw, strip_backticks_fenced c t hbt]

/-! ## Claim C8 -/

/-- C8 counterexample: for the fenced response ```` ```["json"]``` ````
the code hands `["\x22\x22"]` to the parser — the global
`replace("json", "")` deleted the occurrence of `json` inside the JSON
payload — whereas stripping only the surrounding fence markup leaves
`["json"]`, so the payload between the fences is not passed to the parser
unmodified. -/
theorem clean_content_alters_payload :
    clean_content ("```[\"json\"]```".toList)
      ≠ strip_fences_per_spec ("```[\"json\"]```".toList)
    ∧ clean_content ("```[\"json\"]```".toList) = "[\"\"]".toList
    ∧ strip_fences_per_spec ("```[\"json\"]```".toList) = "[\"json\"]".toList := by
  refine ⟨by decide, by decide, by decide⟩

/-- C8 (amended): the raw response is stripped of surrounding whitespace;
a response that does not then begin with a code fence is passed to the
parser unmodified; a fence-wrapped payload (without interior backticks)
has all surrounding backticks stripped and then every occurrence of the
substring `json` anywhere in it deleted — so it reaches the parser
unmodified exactly in the harmless case that it contains no occurrence of
`json`. -/
theorem clean_content_spec (raw p : List Char)
    (hne : p ≠ []) (hbt : backtick ∉ p) :
    (starts_with_fence (strip_ends is_ws raw) = false →
      clean_content raw = strip_ends is_ws raw)
    ∧ clean_content (fence ++ p ++ fence) = remove_json p
    ∧ (contains_json p = false → clean_content (fence ++ p ++ fence) = p) := by
  refine ⟨?_, clean_content_fenced p hne hbt, ?_⟩
  · intro h
    simp [clean_content, h]
  · intro hcj
    rw [clean_content_fenced p hne hbt, remove_json_id p hcj]

/-- Witness for `clean_content_spec`: the fenced payload `[1, 2]`
(no `json` inside) reaches the parser verbatim. -/
theorem clean_content_spec_witness :
    clean_content (fence ++ "[1, 2]".toList ++ fence) = "[1, 2]".toList :=
  (clean_content_spec [] "[1, 2]".toList (by decide) (by decide)).2.2 (by decide)

/-! ## Claim C6 -/

/-- C6 counterexample: the raised error does not carry the raw response
text.  For the unparsable response `raw response A` the raised error's
message is the fixed string `Failed to generate valid questions from
AI.`, of which the raw text is not a substring (it is only printed to the
server console); and when the external call itself fails there is no raw
text anywhere in the outcome. -/
theorem generation_error_lacks_raw_text :
    generate_questions (some "raw response A".toList) (fun _ => none)
      = GenResult.failed fixed_gen_error_msg (some "raw response A")
    ∧ contains_sub "raw response A".toList fixed_gen_error_msg.toList = false
    ∧ generate_questions none (fun _ => none)
      = GenResult.failed fixed_gen_error_msg none := by
  refine ⟨rfl, by decide, rfl⟩

/-- C6 (amended): on external-call failure the operation raises with the
fixed message and nothing printed about a response; on a response that
does not parse as JSON it raises with the same fixed message while the
raw response text goes to the printed diagnostics (not into the error);
and a question list is returned only when the call succeeded and its
cleaned response text parsed — never a partial result on failure. -/
theorem generate_questions_failure_spec
    (svcResponse : Option (List Char))
    (parse : List Char → Option (List GeneratedQuestion)) :
    (svcResponse = none →
      generate_questions svcResponse parse
        = GenResult.failed fixed_gen_error_msg none)
    ∧ (∀ raw, svcResponse = some raw → parse (clean_content raw) = none →
      generate_questions svcResponse parse
        = GenResult.failed fixed_gen_error_msg (some (String.mk raw)))
    ∧ (∀ qs, generate_questions svcResponse parse = GenResult.ok qs →
      ∃ raw, svcResponse = some raw ∧ parse (clean_content raw) = some qs) := by
  refine ⟨?_, ?_, ?_⟩
  · rintro rfl
    rfl
  · rintro raw rfl hp
    simp [generate_questions, hp]
  · intro qs h
    rcases svcResponse with _ | raw
    · simp [generate_questions] at h
    · refine ⟨raw, rfl, ?_⟩
      rcases hp : parse (clean_content raw) with _ | qs'
      · simp [generate_questions, hp] at h
      · simp only [generate_questions, hp, GenResult.ok.injEq] at h
        rw [← h]

/-- Witness for `generate_questions_failure_spec`: a concrete unparsable
response raises the fixed-message error with the raw text printed. -/
theorem generate_questions_failure_spec_witness :
    generate_questions (some "oops".toList) (fun _ => none)
      = GenResult.failed fixed_gen_error_msg (some (String.mk "oops".toList)) :=
  (generate_questions_failure_spec (some "oops".toList) (fun _ => none)).2.1
    "oops".toList rfl rfl
